import Mathlib

/-!
# Verification of the R-based spatial-analysis orchestration layer of the plugin

This file gives a shallow embedding, in Lean 4, of the job-orchestration code
of the `pluginqgis_r_gwr` repository (the three analysis modules
`gwr_analysis.py`, `lisa_analysis.py`, `mgwr_analysis.py` and the persisted
configuration helpers of `gwr_plugin_r.py`), and proves or refutes the frozen
claims about that code.

Python strings manipulated character-by-character (field names, the 10-char
shapefile truncation) are embedded as `List Char`; opaque captured text
(stdout, stderr, diagnostic messages) stays `String`.  Python dicts with
string keys are embedded as association lists with first-occurrence update,
which agrees with dict semantics because every dict built by the code has
pairwise-distinct keys.  External collaborators (the QGIS writer API, the
subprocess runner, the filesystem) are embedded as oracle environments whose
fields record the outcome of each effectful step.
-/

/-- Python `str` handled character-wise. -/
abbrev PyStr := List Char

/-- Python `str(counter)` for a natural counter. -/
def strNat (n : Nat) : PyStr := (Nat.repr n).data

/-- The probe candidate `short_name[:8] + "_" + str(counter)` built from the 8-char
prefix `p` of a truncated field name (all three modules, identical code). -/
def candName (p : PyStr) (n : Nat) : PyStr := p ++ '_' :: strNat n

/-- The collision-resolution loop of `create_safe_field_mapping`
(`gwr_analysis.py` lines 46-48 and verbatim copies in the two other modules):

    counter = 1
    while short_name[:8] + "_" + str(counter) in used_names and counter < 99:
        counter += 1

`probe used p counter` returns the final value of `counter`.  The recursion
is driven by the fuel `99 - counter`: the loop body only runs while
`counter < 99`, so when the fuel reaches `0` we have `counter = 99` and the
loop guard is false anyway. -/
def probeAux (used : List PyStr) (p : PyStr) : Nat → Nat → Nat
  | counter, 0 => counter
  | counter, fuel + 1 =>
    if candName p counter ∈ used ∧ counter < 99 then
      probeAux used p (counter + 1) fuel
    else
      counter

/-- The final counter of the collision-resolution loop started at `counter`. -/
def probe (used : List PyStr) (p : PyStr) (counter : Nat) : Nat :=
  probeAux used p counter (99 - counter)

/-- One short-name assignment of `create_safe_field_mapping`
(`gwr_analysis.py` lines 42-49 / 56-64):

    short_name = field_name[:10]
    if short_name in used_names:
        counter = 1
        while ... (see `probe`)
        short_name = short_name[:8] + "_" + str(counter)
-/
def assignShort (used : List PyStr) (name : PyStr) : PyStr :=
  let short := name.take 10
  if short ∈ used then
    candName (short.take 8) (probe used (short.take 8) 1)
  else
    short

/-- Python dict insertion `d[k] = v` on an association list with
pairwise-distinct keys: replace the entry for `k` in place if present,
otherwise append at the end (dicts preserve insertion order). -/
def dictInsert : List (PyStr × PyStr) → PyStr → PyStr → List (PyStr × PyStr)
  | [], k, v => [(k, v)]
  | kv :: rest, k, v =>
    if kv.1 = k then (k, v) :: rest else kv :: dictInsert rest k v

/-- Python `k in d` on the association-list embedding of a dict. -/
def hasKey (m : List (PyStr × PyStr)) (k : PyStr) : Bool :=
  m.any (fun kv => kv.1 == k)

/-- The loop body shared by both loops of `create_safe_field_mapping`:
assign a short name for `name` against the current `used_names`, record it in
the mapping and add it to `used_names`. -/
def mapStep (st : List (PyStr × PyStr) × List PyStr) (name : PyStr) :
    List (PyStr × PyStr) × List PyStr :=
  let s := assignShort st.2 name
  (dictInsert st.1 name s, st.2 ++ [s])

/-- The body of the second loop of `create_safe_field_mapping`
(`gwr_analysis.py` lines 55-67): layer fields already present as keys of
`field_mapping` are skipped. -/
def layerStep (st : List (PyStr × PyStr) × List PyStr) (name : PyStr) :
    List (PyStr × PyStr) × List PyStr :=
  if hasKey st.1 name then st else mapStep st name

/-- `create_safe_field_mapping(layer_fields, selected_fields)` of
`gwr_analysis.py` lines 25-69; `lisa_analysis.py` lines 25-67 and
`mgwr_analysis.py` lines 25-66 are verbatim copies.  `layer_fields` is the
list of the field names of the layer in natural order. -/
def create_safe_field_mapping (layer_fields selected_fields : List PyStr) :
    List (PyStr × PyStr) :=
  (layer_fields.foldl layerStep (selected_fields.foldl mapStep ([], []))).1

/-- Invariant tying the partial `field_mapping` to the partial `used_names`:
every mapped short name has been recorded as used, the mapped short names are
pairwise distinct, and the mapping keys are pairwise distinct. -/
def MapInv (st : List (PyStr × PyStr) × List PyStr) : Prop :=
  (∀ e ∈ st.1, e.2 ∈ st.2) ∧
  (st.1.Pairwise fun a b => a.2 ≠ b.2) ∧
  (st.1.Pairwise fun a b => a.1 ≠ b.1)

/-- A `used_names` set containing the truncation candidate of
`"ccccccccccc"` together with all 98 probe candidates. -/
def exhaustedUsed : List PyStr :=
  ("ccccccccccc".toList : PyStr).take 10 ::
    (List.range 98).map (fun i => candName "cccccccc".toList (i + 1))

/-! ## The external-process runner (`run_analysis` of the three modules)

The effectful steps of `run_analysis` are embedded through an oracle
environment `RunEnv` describing the outcome of each external interaction:
the export to the working directory, the `subprocess.run` call (normal
completion, `subprocess.TimeoutExpired`, or any other raised exception), and
the validity check of the loaded result layer.  The filesystem is reduced to
the one fact the claims are about: whether the temporary working directory
created by `tempfile.mkdtemp()` still exists. -/

/-- The `subprocess.CompletedProcess` fields used by `run_analysis`. -/
structure ProcOutput where
  returncode : Int
  stdout : String
  stderr : String

/-- Outcome of the `subprocess.run` call inside the `try` block. -/
inductive RunOutcome where
  | completed (r : ProcOutput)
  | timedOut
  | raised (msg : String)

/-- Outcome of `export_layer_with_field_mapping` as seen by `run_analysis`:
the `(success, error_message)` pair collapsed to its two reachable shapes. -/
inductive ExportOutcome where
  | ok
  | failed (msg : String)

/-- A `QgsVectorLayer(path, baseName, "ogr")` handle: a layer backed by the
file at `source`. -/
structure VectorLayer where
  source : String
  baseName : String
  provider : String

/-- Oracle environment for one `run_analysis` call. -/
structure RunEnv where
  tempDir : String
  exportOutcome : ExportOutcome
  runOutcome : RunOutcome
  loadValid : Bool

/-- Filesystem as far as the claims are concerned. -/
structure FsState where
  tempDirExists : Bool

/-- State right after `temp_dir = tempfile.mkdtemp()`. -/
def mkdtempState : FsState := ⟨true⟩

/-- `shutil.rmtree(temp_dir)` of the `finally` block. -/
def rmtree (s : FsState) : FsState := { s with tempDirExists := false }

/-- `os.path.join` with the forward-slash separator used for the engine. -/
def osJoin (a b : String) : String := a ++ "/" ++ b

/-- The export failure message, the text `Erreur lors de l\x27export: ` followed
by the error message of the exporter. -/
def exportErrorMsg (m : String) : String :=
  "Erreur lors de l\x27export: " ++ m

/-- The non-zero-exit failure message: `Erreur R :`, a newline, the captured
stderr, then `Sortie stdout:` and the captured stdout. -/
def rErrorMsg (r : ProcOutput) : String :=
  "Erreur R :\n" ++ r.stderr ++ "\n\nSortie stdout:\n" ++ r.stdout

/-- The invalid-result message of all three modules. -/
def loadErrorMsg : String := "Erreur lors du chargement des résultats"

/-- The message `Erreur: ` followed by the exception text, produced by the
catch-all `except Exception` handler. -/
def excMsg (m : String) : String := "Erreur: " ++ m

/-- GWR timeout message (timeout 1800 s). -/
def gwrTimeoutMsg : String :=
  "L\x27analyse a dépassé le temps limite (30 minutes)"

/-- LISA timeout message (timeout 600 s). -/
def lisaTimeoutMsg : String :=
  "L\x27analyse a dépassé le temps limite (10 minutes)"

/-- MGWR timeout message (timeout 3600 s). -/
def mgwrTimeoutMsg : String :=
  "L\x27analyse a dépassé le temps limite (60 minutes)"

/-- The shared `try`-block body of `run_analysis` (identical control flow in
`gwr_analysis.py` lines 338-415, `lisa_analysis.py` lines 374-437 and
`mgwr_analysis.py` lines 394-463), parameterized by the per-module result
layer name and timeout message:

* export failed            → no result, the export failure message
* `subprocess.TimeoutExpired` → `(None, timeout message)`
* any other exception      → no result, the catch-all exception message
* `returncode != 0`        → no result, the stderr+stdout failure message
* result layer not valid   → `(None, "Erreur lors du chargement des résultats")`
* otherwise                → `(result_layer, result.stdout)` where
  `result_layer = QgsVectorLayer(os.path.join(temp_dir, "output.shp"), name, "ogr")`. -/
def analysisBody (resultName timeoutMsg : String) (env : RunEnv) :
    Option VectorLayer × String :=
  match env.exportOutcome with
  | .failed m => (none, exportErrorMsg m)
  | .ok =>
    match env.runOutcome with
    | .timedOut => (none, timeoutMsg)
    | .raised m => (none, excMsg m)
    | .completed r =>
      if r.returncode ≠ 0 then
        (none, rErrorMsg r)
      else
        let result_layer : VectorLayer :=
          ⟨osJoin env.tempDir "output.shp", resultName, "ogr"⟩
        if ¬ env.loadValid then (none, loadErrorMsg)
        else (some result_layer, r.stdout)

/-- `GWRAnalysisModule.run_analysis` (`gwr_analysis.py` lines 311-420).  Its
`finally` block runs `shutil.rmtree(temp_dir)` on every exit path. -/
def gwr_run_analysis (env : RunEnv) :
    (Option VectorLayer × String) × FsState :=
  (analysisBody "GWR_Results" gwrTimeoutMsg env, rmtree mkdtempState)

/-- `LISAAnalysisModule.run_analysis` (`lisa_analysis.py` lines 349-442),
with the same `finally` cleanup as GWR. -/
def lisa_run_analysis (env : RunEnv) :
    (Option VectorLayer × String) × FsState :=
  (analysisBody "LISA_Results" lisaTimeoutMsg env, rmtree mkdtempState)

/-- `MGWRAnalysisModule.run_analysis` (`mgwr_analysis.py` lines 368-463).
Unlike the two other modules it has NO `finally` block and never calls
`shutil.rmtree`, so the state after `mkdtemp` is returned unchanged. -/
def mgwr_run_analysis (_r_path : String) (env : RunEnv) :
    (Option VectorLayer × String) × FsState :=
  (analysisBody "MGWR_Results" mgwrTimeoutMsg env, mkdtempState)

/-- A run of `run_analysis` is successful exactly when the export succeeded,
the engine exited with code 0 and the output layer loaded as valid. -/
def runSuccess (env : RunEnv) : Prop :=
  env.exportOutcome = .ok ∧
  (∃ r : ProcOutput, env.runOutcome = .completed r ∧ r.returncode = 0) ∧
  env.loadValid = true

/-- A layer handle depends on the directory `dir` when its backing file
lives under `dir`. -/
def dependsOnDir (l : VectorLayer) (dir : String) : Prop :=
  ∃ f : String, l.source = dir ++ "/" ++ f

/-- A concrete successful GWR environment. -/
def c4env : RunEnv :=
  ⟨"/tmp/gwr_job", .ok, .completed ⟨0, "engine log", ""⟩, true⟩

/-! ## The dataset exporter (`export_layer_with_field_mapping`) -/

/-- A layer field: its name plus its other properties (type, width, ...)
collapsed into one opaque payload copied verbatim by `QgsField(field)`. -/
structure QgsField where
  name : PyStr
  meta : Nat

/-- A feature: opaque geometry plus attribute values keyed by field name. -/
structure QgsFeature where
  geometry : Nat
  attrs : List (PyStr × Int)

/-- `feature.attribute(name)`. -/
def QgsFeature.attribute (f : QgsFeature) (n : PyStr) : Int :=
  (f.attrs.lookup n).getD 0

/-- The parts of a `QgsVectorLayer` read by the exporter. -/
structure QgsVectorLayerData where
  fields : List QgsField
  features : List QgsFeature
  wkbType : Nat
  crs : Nat

/-- One iteration of the `new_fields` loop: copy the field and rename it if
its name is a key of the mapping. -/
def renameField (fm : List (PyStr × PyStr)) (f : QgsField) : QgsField :=
  match fm.lookup f.name with
  | some s => { f with name := s }
  | none => f

/-- The new feature built for `writer.addFeature`: same geometry, attribute
`i` set to `feature.attribute(layer.fields()[i].name())`. -/
def buildFeature (layer : QgsVectorLayerData) (nf : List QgsField)
    (feature : QgsFeature) : QgsFeature :=
  { geometry := feature.geometry,
    attrs := (nf.zip layer.fields).map
      (fun p => (p.1.name, feature.attribute p.2.name)) }

/-- Oracle for the `QgsVectorFileWriter`: whether `create` reports an error
(and its message), and whether each `addFeature` call succeeds.  The source
ignores the boolean returned by `addFeature`. -/
structure WriterEnv where
  createError : Option String
  addOk : Nat → Bool

/-- The dataset left on disk by a writer that was fully closed. -/
structure WrittenDataset where
  fields : List QgsField
  features : List QgsFeature

/-- `export_layer_with_field_mapping(layer, output_path, field_mapping)`
(`gwr_analysis.py` lines 71-119; verbatim copies in the two other modules).
Returns the `(success, error_message)` pair together with the dataset left
behind by the writer (`none` when `create` failed). -/
def export_layer_with_field_mapping (layer : QgsVectorLayerData)
    (fm : List (PyStr × PyStr)) (w : WriterEnv) :
    (Bool × Option String) × Option WrittenDataset :=
  let nf := layer.fields.map (renameField fm)
  match w.createError with
  | some e =>
    ((false, some ("Erreur lors de la création du shapefile: " ++ e)), none)
  | none =>
    let newFeats := layer.features.map (buildFeature layer nf)
    let kept := newFeats.enum.filterMap
      (fun p => if w.addOk p.1 then some p.2 else none)
    ((true, none), some ⟨nf, kept⟩)

/-- A one-field, one-feature layer. -/
def c6layer : QgsVectorLayerData :=
  ⟨[⟨"value".toList, 7⟩], [⟨3, [("value".toList, 42)]⟩], 1, 2⟩

/-! ## Persisted configuration (`gwr_plugin_r.py` lines 293-305)

The `configparser` file is embedded as sections of key-value pairs; a
missing `config.ini` is `none`. -/

/-- `save_r_path(path)`: the configuration written by
assigning the section `R` holding the single key `path`, followed by a full
rewrite of the file. -/
def save_r_path (path : String) : List (String × List (String × String)) :=
  [("R", [("path", path)])]

/-- `load_r_path()`: `None` when the file does not exist, otherwise
`config["R"]["path"]` guarded by `"R" in config and "path" in config["R"]`. -/
def load_r_path (file : Option (List (String × List (String × String)))) :
    Option String :=
  match file with
  | none => none
  | some config =>
    match config.lookup "R" with
    | some sec =>
      match sec.lookup "path" with
      | some p => some p
      | none => none
    | none => none

/-! ## Kernel-name fallback (`run_analysis` of GWR and MGWR) -/

/-- The `kernel_names` dict literal of `gwr_analysis.py` lines 378-384 and
`mgwr_analysis.py` lines 426-432. -/
def kernel_names : List (String × String) :=
  [("gaussian", "gaussian"), ("bisquare", "bisquare"),
   ("tricube", "tricube"), ("exponential", "exponential"),
   ("boxcar", "boxcar")]

/-- The `kernel_names.get(kernel_type, "gaussian")` lookup in the GWR `run_analysis`. -/
def gwr_kernel_name (kernel_type : String) : String :=
  (kernel_names.lookup kernel_type).getD "gaussian"

/-- The `kernel_names.get(kernel_type, "gaussian")` lookup in the MGWR `run_analysis`. -/
def mgwr_kernel_name (kernel_type : String) : String :=
  (kernel_names.lookup kernel_type).getD "gaussian"

/-- The `used_names` list produced when, for one 8-character prefix `p`, the
base truncation `base` and then the probe candidates `1..k` have all been
assigned: the state leading to the exhaustion of the collision loop. -/
def usedUpTo (base p : PyStr) (k : Nat) : List PyStr :=
  base :: (List.range k).map (fun i => candName p (i + 1))

/-! # Theorems -/

/-! ## Arithmetic facts about the decimal rendering of small counters -/

theorem strNat_len_le : ∀ n < 100, (strNat n).length ≤ 2 := by decide

set_option maxRecDepth 40000 in
theorem strNat_inj100 : ∀ n < 100, ∀ m < 100, n ≠ m → strNat n ≠ strNat m := by
  decide

theorem candName_inj (p : PyStr) {n m : Nat} (hn : n < 100) (hm : m < 100)
    (h : candName p n = candName p m) : n = m := by
  by_contra hne
  have h1 : ('_' :: strNat n) = ('_' :: strNat m) := List.append_cancel_left h
  have h2 : strNat n = strNat m := by injection h1
  exact strNat_inj100 n hn m hm hne h2

/-! ## Behaviour of the collision-resolution loop -/

theorem probeAux_le (used : List PyStr) (p : PyStr) :
    ∀ fuel counter, counter ≤ 99 → probeAux used p counter fuel ≤ 99 := by
  intro fuel
  induction fuel with
  | zero => intro c hc; simpa [probeAux] using hc
  | succ f ih =>
    intro c hc
    simp only [probeAux]
    split
    · next hcond => exact ih (c + 1) (by omega)
    · exact hc

theorem probeAux_fresh (used : List PyStr) (p : PyStr) :
    ∀ fuel counter, 99 - counter ≤ fuel →
      (∃ n, counter ≤ n ∧ n ≤ 99 ∧ candName p n ∉ used) →
      candName p (probeAux used p counter fuel) ∉ used := by
  intro fuel
  induction fuel with
  | zero =>
    intro c hfuel hex
    obtain ⟨n, hcn, hn99, hfree⟩ := hex
    have hc : c = n := by omega
    subst hc
    exact hfree
  | succ f ih =>
    intro c hfuel hex
    simp only [probeAux]
    split
    · next hcond =>
      obtain ⟨n, hcn, hn99, hfree⟩ := hex
      have hne : n ≠ c := fun h => hfree (h ▸ hcond.1)
      exact ih (c + 1) (by omega) ⟨n, by omega, hn99, hfree⟩
    · next hcond =>
      obtain ⟨n, hcn, hn99, hfree⟩ := hex
      rcases Decidable.em (candName p c ∈ used) with hmem | hmem
      · have hc99 : ¬ c < 99 := fun h => hcond ⟨hmem, h⟩
        have hc : c = n := by omega
        exact hc ▸ hfree
      · exact hmem

theorem exists_fresh_cand (used : List PyStr) (p : PyStr)
    (h : used.length ≤ 98) :
    ∃ n, 1 ≤ n ∧ n ≤ 99 ∧ candName p n ∉ used := by
  by_contra hc
  push_neg at hc
  have hsub : (Finset.Icc 1 99).image (candName p) ⊆ used.toFinset := by
    intro x hx
    rw [Finset.mem_image] at hx
    obtain ⟨n, hn, rfl⟩ := hx
    rw [Finset.mem_Icc] at hn
    exact List.mem_toFinset.mpr (hc n hn.1 hn.2)
  have hcard : ((Finset.Icc 1 99).image (candName p)).card = 99 := by
    rw [Finset.card_image_of_injOn, Nat.card_Icc]
    intro a ha b hb hab
    rw [Finset.coe_Icc, Set.mem_Icc] at ha hb
    exact candName_inj p (by omega) (by omega) hab
  have hle : ((Finset.Icc 1 99).image (candName p)).card ≤ used.toFinset.card :=
    Finset.card_le_card hsub
  have hll : used.toFinset.card ≤ used.length := used.toFinset_card_le
  omega

theorem assignShort_fresh (used : List PyStr) (name : PyStr)
    (h : used.length ≤ 98) : assignShort used name ∉ used := by
  simp only [assignShort]
  split
  · exact probeAux_fresh used ((name.take 10).take 8) (99 - 1) 1 (by omega)
      (exists_fresh_cand used ((name.take 10).take 8) h)
  · next hmem => exact hmem

theorem assignShort_len (used : List PyStr) (name : PyStr) :
    (assignShort used name).length ≤ 11 := by
  simp only [assignShort]
  split
  · have hp : ((name.take 10).take 8).length ≤ 8 :=
      List.length_take_le 8 (name.take 10)
    have hc : probe used ((name.take 10).take 8) 1 ≤ 99 :=
      probeAux_le used ((name.take 10).take 8) (99 - 1) 1 (by omega)
    have hs : (strNat (probe used ((name.take 10).take 8) 1)).length ≤ 2 :=
      strNat_len_le _ (by omega)
    simp only [candName, List.length_append, List.length_cons]
    omega
  · have := List.length_take_le 10 name
    omega

/-! ## Dict-update lemmas -/

theorem dictInsert_mem {m : List (PyStr × PyStr)} {k v : PyStr} :
    ∀ e ∈ dictInsert m k v, e ∈ m ∨ e = (k, v) := by
  induction m with
  | nil => simp [dictInsert]
  | cons kv rest ih =>
    simp only [dictInsert]
    split
    · intro e he
      rcases List.mem_cons.mp he with h | h
      · exact Or.inr h
      · exact Or.inl (List.mem_cons_of_mem kv h)
    · intro e he
      rcases List.mem_cons.mp he with h | h
      · exact Or.inl (h ▸ List.mem_cons_self kv rest)
      · rcases ih e h with h2 | h2
        · exact Or.inl (List.mem_cons_of_mem kv h2)
        · exact Or.inr h2

theorem dictInsert_pairwise_keys {m : List (PyStr × PyStr)} (k v : PyStr)
    (h : m.Pairwise fun a b => a.1 ≠ b.1) :
    (dictInsert m k v).Pairwise fun a b => a.1 ≠ b.1 := by
  induction m with
  | nil => simp [dictInsert]
  | cons kv0 rest ih =>
    rw [List.pairwise_cons] at h
    simp only [dictInsert]
    split
    · next heq =>
      rw [List.pairwise_cons]
      exact ⟨fun e he => heq ▸ h.1 e he, h.2⟩
    · next hne =>
      rw [List.pairwise_cons]
      refine ⟨fun e he => ?_, ih h.2⟩
      rcases dictInsert_mem e he with h2 | h2
      · exact h.1 e h2
      · rw [h2]; exact hne

theorem dictInsert_pairwise_vals {m : List (PyStr × PyStr)}
    {used : List PyStr} {k v : PyStr}
    (hvals : ∀ e ∈ m, e.2 ∈ used)
    (hpv : m.Pairwise fun a b => a.2 ≠ b.2)
    (hv : v ∉ used) :
    (dictInsert m k v).Pairwise fun a b => a.2 ≠ b.2 := by
  induction m with
  | nil => simp [dictInsert]
  | cons kv0 rest ih =>
    rw [List.pairwise_cons] at hpv
    simp only [dictInsert]
    split
    · rw [List.pairwise_cons]
      refine ⟨fun e he h => ?_, hpv.2⟩
      apply hv
      rw [show v = e.2 from h]
      exact hvals e (List.mem_cons_of_mem kv0 he)
    · rw [List.pairwise_cons]
      refine ⟨fun e he => ?_,
        ih (fun e he => hvals e (List.mem_cons_of_mem kv0 he)) hpv.2⟩
      rcases dictInsert_mem e he with h2 | h2
      · exact hpv.1 e h2
      · rw [h2]
        intro h
        apply hv
        rw [← show kv0.2 = v from h]
        exact hvals kv0 (List.mem_cons_self kv0 rest)

/-! ## The loop invariant of `create_safe_field_mapping` -/

theorem mapStep_inv {st : List (PyStr × PyStr) × List PyStr}
    (h : MapInv st) (hlen : st.2.length ≤ 98) (name : PyStr) :
    MapInv (mapStep st name) ∧ (mapStep st name).2.length = st.2.length + 1 := by
  obtain ⟨hvals, hpv, hpk⟩ := h
  have hfresh := assignShort_fresh st.2 name hlen
  refine ⟨⟨?_, ?_, ?_⟩, by simp [mapStep]⟩
  · intro e he
    rcases dictInsert_mem e he with h2 | h2
    · exact List.mem_append_left _ (hvals e h2)
    · rw [h2]; simp [mapStep]
  · exact dictInsert_pairwise_vals hvals hpv hfresh
  · exact dictInsert_pairwise_keys name _ hpk

theorem foldl_mapStep_inv :
    ∀ (names : List PyStr) (st : List (PyStr × PyStr) × List PyStr),
      MapInv st → st.2.length + names.length ≤ 99 →
      MapInv (names.foldl mapStep st) ∧
        (names.foldl mapStep st).2.length = st.2.length + names.length := by
  intro names
  induction names with
  | nil => intro st h _; simpa using h
  | cons n rest ih =>
    intro st hinv hlen
    simp only [List.length_cons] at hlen
    obtain ⟨hinv1, hlen1⟩ := mapStep_inv hinv (by omega) n
    obtain ⟨hinv2, hlen2⟩ := ih (mapStep st n) hinv1 (by omega)
    rw [List.foldl_cons]
    exact ⟨hinv2, by simp only [List.length_cons]; omega⟩

theorem foldl_layerStep_inv :
    ∀ (names : List PyStr) (st : List (PyStr × PyStr) × List PyStr),
      MapInv st → st.2.length + names.length ≤ 99 →
      MapInv (names.foldl layerStep st) ∧
        (names.foldl layerStep st).2.length ≤ st.2.length + names.length := by
  intro names
  induction names with
  | nil => intro st h _; simpa using h
  | cons n rest ih =>
    intro st hinv hlen
    simp only [List.length_cons] at hlen
    rw [List.foldl_cons, layerStep]
    split
    · obtain ⟨hinv2, hlen2⟩ := ih st hinv (by omega)
      exact ⟨hinv2, by simp only [List.length_cons]; omega⟩
    · obtain ⟨hinv1, hlen1⟩ := mapStep_inv hinv (by omega) n
      obtain ⟨hinv2, hlen2⟩ := ih (mapStep st n) hinv1 (by omega)
      exact ⟨hinv2, by simp only [List.length_cons]; omega⟩

/-! ## Unconditional 11-character bound -/

theorem mapStep_len11 {st : List (PyStr × PyStr) × List PyStr}
    (h : ∀ e ∈ st.1, e.2.length ≤ 11) (name : PyStr) :
    ∀ e ∈ (mapStep st name).1, e.2.length ≤ 11 := by
  intro e he
  rcases dictInsert_mem e he with h2 | h2
  · exact h e h2
  · rw [h2]
    exact assignShort_len st.2 name

theorem foldl_mapStep_len11 :
    ∀ (names : List PyStr) (st : List (PyStr × PyStr) × List PyStr),
      (∀ e ∈ st.1, e.2.length ≤ 11) →
      ∀ e ∈ (names.foldl mapStep st).1, e.2.length ≤ 11 := by
  intro names
  induction names with
  | nil => intro st h; simpa using h
  | cons n rest ih =>
    intro st h
    rw [List.foldl_cons]
    exact ih (mapStep st n) (mapStep_len11 h n)

theorem foldl_layerStep_len11 :
    ∀ (names : List PyStr) (st : List (PyStr × PyStr) × List PyStr),
      (∀ e ∈ st.1, e.2.length ≤ 11) →
      ∀ e ∈ (names.foldl layerStep st).1, e.2.length ≤ 11 := by
  intro names
  induction names with
  | nil => intro st h; simpa using h
  | cons n rest ih =>
    intro st h
    rw [List.foldl_cons, layerStep]
    split
    · exact ih st h
    · exact ih (mapStep st n) (mapStep_len11 h n)

/-! ## Symbolic evaluation of the collision loop on a saturated prefix -/

theorem probeAux_exhaust (used : List PyStr) (p : PyStr) :
    ∀ fuel counter, counter + fuel = 99 → 1 ≤ counter →
      (∀ n < 99, 1 ≤ n → candName p n ∈ used) →
      probeAux used p counter fuel = 99 := by
  intro fuel
  induction fuel with
  | zero => intro c hc _ _; simpa [probeAux] using hc
  | succ f ih =>
    intro c hc h1 hall
    have hmem : candName p c ∈ used := hall c (by omega) h1
    simp only [probeAux, if_pos (And.intro hmem (by omega : c < 99))]
    exact ih (c + 1) (by omega) (by omega) hall

theorem mem_usedUpTo (base p : PyStr) (k j : Nat) (hj1 : 1 ≤ j)
    (hjk : j ≤ k) : candName p j ∈ usedUpTo base p k := by
  apply List.mem_cons_of_mem
  refine List.mem_map.mpr ⟨j - 1, List.mem_range.mpr (by omega), ?_⟩
  congr 1
  omega

theorem not_mem_usedUpTo (base p : PyStr) (k j : Nat)
    (hbase : ∀ i < 100, 1 ≤ i → base ≠ candName p i)
    (hj1 : 1 ≤ j) (hj99 : j ≤ 99) (hk99 : k ≤ 99) (hjk : k < j) :
    candName p j ∉ usedUpTo base p k := by
  intro hmem
  rcases List.mem_cons.mp hmem with h | h
  · exact hbase j (by omega) hj1 h.symm
  · obtain ⟨i, hi, hij⟩ := List.mem_map.mp h
    rw [List.mem_range] at hi
    have hji : i + 1 = j := candName_inj p (by omega) (by omega) hij
    omega

theorem probeAux_stops (used : List PyStr) (p : PyStr) :
    ∀ fuel c m, c ≤ m → m ≤ 99 → 99 - c ≤ fuel →
      (∀ j, c ≤ j → j < m → candName p j ∈ used) →
      candName p m ∉ used →
      probeAux used p c fuel = m := by
  intro fuel
  induction fuel with
  | zero =>
    intro c m h1 h2 h3 _ _
    simp only [probeAux]
    omega
  | succ f ih =>
    intro c m hcm hm99 hfuel hmem hnot
    rcases Nat.eq_or_lt_of_le hcm with heq | hlt
    · subst heq
      have hguard : ¬(candName p c ∈ used ∧ c < 99) := fun h => hnot h.1
      simp only [probeAux, if_neg hguard]
    · have hguard : candName p c ∈ used ∧ c < 99 :=
        ⟨hmem c (Nat.le_refl c) hlt, by omega⟩
      simp only [probeAux, if_pos hguard]
      exact ih (c + 1) m (by omega) hm99 (by omega)
        (fun j hj hjm => hmem j (by omega) hjm) hnot

theorem assignShort_usedUpTo (A base p : PyStr) (hA : A.take 10 = base)
    (hp : base.take 8 = p)
    (hbase : ∀ i < 100, 1 ≤ i → base ≠ candName p i)
    (j : Nat) (hj : j ≤ 98) :
    assignShort (usedUpTo base p j) A = candName p (j + 1) := by
  simp only [assignShort, hA, hp]
  rw [if_pos (show base ∈ usedUpTo base p j from List.mem_cons_self _ _)]
  congr 1
  exact probeAux_stops (usedUpTo base p j) p (99 - 1) 1 (j + 1) (by omega)
    (by omega) (by omega)
    (fun i hi1 hij => mem_usedUpTo base p j i hi1 (by omega))
    (not_mem_usedUpTo base p j (j + 1) hbase (by omega) (by omega) (by omega)
      (by omega))

theorem mapStep_usedUpTo (A base p : PyStr) (hA : A.take 10 = base)
    (hp : base.take 8 = p)
    (hbase : ∀ i < 100, 1 ≤ i → base ≠ candName p i)
    (j : Nat) (hj : j ≤ 98) (w : PyStr) :
    mapStep ([(A, w)], usedUpTo base p j) A =
      ([(A, candName p (j + 1))], usedUpTo base p (j + 1)) := by
  simp only [mapStep, assignShort_usedUpTo A base p hA hp hbase j hj,
    Prod.mk.injEq]
  constructor
  · simp [dictInsert]
  · simp [usedUpTo, List.range_succ]

theorem foldl_mapStep_replicate (A base p : PyStr) (hA : A.take 10 = base)
    (hp : base.take 8 = p)
    (hbase : ∀ i < 100, 1 ≤ i → base ≠ candName p i) :
    ∀ (k j : Nat) (w : PyStr), 1 ≤ k → j + k ≤ 99 →
      (List.replicate k A).foldl mapStep ([(A, w)], usedUpTo base p j) =
        ([(A, candName p (j + k))], usedUpTo base p (j + k)) := by
  intro k
  induction k with
  | zero => intro j w h1 _; exact absurd h1 (by omega)
  | succ k ih =>
    intro j w _ hjk
    rw [List.replicate_succ, List.foldl_cons,
      mapStep_usedUpTo A base p hA hp hbase j (by omega) w]
    rcases Nat.eq_zero_or_pos k with hk0 | hk1
    · subst hk0
      simp
    · have harith : j + 1 + k = j + (k + 1) := by omega
      rw [ih (j + 1) (candName p (j + 1)) hk1 (by omega), harith]

theorem mapStep_exhausted (A B base p : PyStr) (hB : B.take 10 = base)
    (hp : base.take 8 = p) (hAB : A ≠ B) (w : PyStr) :
    mapStep ([(A, w)], usedUpTo base p 99) B =
      ([(A, w), (B, candName p 99)],
        usedUpTo base p 99 ++ [candName p 99]) := by
  have hassign : assignShort (usedUpTo base p 99) B = candName p 99 := by
    simp only [assignShort, hB, hp]
    rw [if_pos (show base ∈ usedUpTo base p 99 from List.mem_cons_self _ _)]
    congr 1
    exact probeAux_exhaust _ p 98 1 (by omega) (by omega)
      (fun n hn h1 => mem_usedUpTo base p 99 n h1 (by omega))
  simp [mapStep, hassign, dictInsert, hAB]

theorem exhaustion_collision (A B base p : PyStr)
    (hA : A.take 10 = base) (hB : B.take 10 = base) (hp : base.take 8 = p)
    (hbase : ∀ i < 100, 1 ≤ i → base ≠ candName p i) (hAB : A ≠ B) :
    create_safe_field_mapping [] (List.replicate 100 A ++ [B]) =
      [(A, candName p 99), (B, candName p 99)] := by
  have h0 : mapStep ([], []) A = ([(A, base)], usedUpTo base p 0) := by
    have ha : assignShort [] A = base := by simp [assignShort, hA]
    simp [mapStep, ha, dictInsert, usedUpTo]
  have h1 : (List.replicate 100 A).foldl mapStep ([], []) =
      ([(A, candName p 99)], usedUpTo base p 99) := by
    rw [show (100 : Nat) = 99 + 1 from rfl, List.replicate_succ,
      List.foldl_cons, h0,
      foldl_mapStep_replicate A base p hA hp hbase 99 0 base (by omega)
        (by omega), Nat.zero_add]
  rw [create_safe_field_mapping, List.foldl_nil, List.foldl_append, h1,
    List.foldl_cons, List.foldl_nil,
    mapStep_exhausted A B base p hB hp hAB (candName p 99)]

/-! ## Claim C1 -/

/-- C1 (amended).  For every layer field list and every non-empty ordered
list of selected field names, as long as the total number of field names
(selected plus layer) is at most 99 the mapping returned by
`create_safe_field_mapping` assigns pairwise-distinct short names, and
(unconditionally) every assigned short name is at most 11 characters long.
The original 10-character bound fails as soon as ten names collide onto the
same 8-character prefix, and distinctness fails once the 99 probe candidates
of a prefix are exhausted, which needs more than 99 names. -/
theorem C1_field_mapping_distinct_and_bounded
    (layer_fields selected_fields : List PyStr)
    (_hne : selected_fields ≠ [])
    (hcount : selected_fields.length + layer_fields.length ≤ 99) :
    ((create_safe_field_mapping layer_fields selected_fields).Pairwise
        fun a b => a.2 ≠ b.2) ∧
    ∀ e ∈ create_safe_field_mapping layer_fields selected_fields,
      e.2.length ≤ 11 := by
  have hinv0 : MapInv ([], []) := ⟨by simp, by simp, by simp⟩
  obtain ⟨hinv1, hlen1⟩ :=
    foldl_mapStep_inv selected_fields ([], []) hinv0 (by simp; omega)
  obtain ⟨hinv2, _⟩ :=
    foldl_layerStep_inv layer_fields _ hinv1 (by rw [hlen1]; simp; omega)
  refine ⟨hinv2.2.1, ?_⟩
  exact foldl_layerStep_len11 layer_fields _
    (foldl_mapStep_len11 selected_fields ([], []) (by simp))

theorem C1_field_mapping_witness :
    ((["population_density".toList] : List PyStr) ≠ [] ∧
      (["population_density".toList] : List PyStr).length +
        (["id".toList] : List PyStr).length ≤ 99) ∧
    (((create_safe_field_mapping ["id".toList]
          ["population_density".toList]).Pairwise
        fun a b => a.2 ≠ b.2) ∧
      ∀ e ∈ create_safe_field_mapping ["id".toList]
          ["population_density".toList], e.2.length ≤ 11) :=
  ⟨⟨by decide, by decide⟩,
    C1_field_mapping_distinct_and_bounded ["id".toList]
      ["population_density".toList] (by decide) (by decide)⟩

theorem C1_counterexample :
    ((create_safe_field_mapping []
        ["abcdefghij0".toList, "abcdefghij1".toList, "abcdefghij2".toList,
         "abcdefghij3".toList, "abcdefghij4".toList, "abcdefghij5".toList,
         "abcdefghij6".toList, "abcdefghij7".toList, "abcdefghij8".toList,
         "abcdefghij9".toList, "abcdefghijX".toList]).lookup
          "abcdefghijX".toList = some "abcdefgh_10".toList ∧
      ("abcdefgh_10".toList : PyStr).length = 11) ∧
    (create_safe_field_mapping []
        (List.replicate 100 "yyyyyyyyyyA".toList ++ ["yyyyyyyyyyB".toList]) =
      [("yyyyyyyyyyA".toList, "yyyyyyyy_99".toList),
       ("yyyyyyyyyyB".toList, "yyyyyyyy_99".toList)] ∧
      ("yyyyyyyyyyA".toList : PyStr) ≠ "yyyyyyyyyyB".toList) := by
  refine ⟨⟨by decide, by decide⟩, ?_, by decide⟩
  rw [exhaustion_collision "yyyyyyyyyyA".toList "yyyyyyyyyyB".toList
    "yyyyyyyyyy".toList "yyyyyyyy".toList (by decide) (by decide) (by decide)
    (by decide) (by decide)]
  decide

/-! ## Claim C2 -/

/-- C2 (amended).  When, during short-name assignment, the
first-10-characters candidate for a field name is already used and all probe
candidates built from the first 8 characters and a counter 1..98 are all
used, the assignment step of `create_safe_field_mapping` does not fail: it
assigns the probe candidate with counter 99 even when that candidate is
itself already in use, so the returned mapping can silently give two
different field names the same short name. -/
theorem C2_exhausted_probe_assigns_99 (used : List PyStr) (name : PyStr)
    (hbase : name.take 10 ∈ used)
    (hprobes : ∀ n < 99, 1 ≤ n → candName ((name.take 10).take 8) n ∈ used) :
    assignShort used name = candName ((name.take 10).take 8) 99 := by
  simp only [assignShort, if_pos hbase]
  congr 1
  exact probeAux_exhaust used ((name.take 10).take 8) 98 1 (by omega)
    (by omega) hprobes

theorem C2_exhausted_witness :
    ((("ccccccccccc".toList : PyStr).take 10 ∈ exhaustedUsed ∧
      ∀ n < 99, 1 ≤ n →
        candName ((("ccccccccccc".toList : PyStr).take 10).take 8) n ∈
          exhaustedUsed) ∧
     assignShort exhaustedUsed "ccccccccccc".toList =
       candName ((("ccccccccccc".toList : PyStr).take 10).take 8) 99) :=
  ⟨⟨by decide, by decide⟩,
    C2_exhausted_probe_assigns_99 exhaustedUsed "ccccccccccc".toList
      (by decide) (by decide)⟩

theorem C2_counterexample :
    create_safe_field_mapping []
        (List.replicate 100 "zzzzzzzzzzA".toList ++ ["zzzzzzzzzzB".toList]) =
      [("zzzzzzzzzzA".toList, "zzzzzzzz_99".toList),
       ("zzzzzzzzzzB".toList, "zzzzzzzz_99".toList)] ∧
    ("zzzzzzzzzzA".toList : PyStr) ≠ "zzzzzzzzzzB".toList := by
  constructor
  · rw [exhaustion_collision "zzzzzzzzzzA".toList "zzzzzzzzzzB".toList
      "zzzzzzzzzz".toList "zzzzzzzz".toList (by decide) (by decide)
      (by decide) (by decide) (by decide)]
    decide
  · decide

/-! ## Claim C7 -/

/-- C7 (confirmed).  Given the priority field list
`["population_density", "population_growth"]` (both of which truncate to
`"population"`), `create_safe_field_mapping` assigns the short name
`"population"` to `"population_density"` and the collision-resolved short
name `"populati_1"` (8 characters plus `"_1"`) to `"population_growth"`. -/
theorem C7_collision_example :
    create_safe_field_mapping []
        ["population_density".toList, "population_growth".toList] =
      [("population_density".toList, "population".toList),
       ("population_growth".toList, "populati_1".toList)] := by decide

/-! ## Claim C3 -/

/-- C3 (code bug in the MGWR module).  For every environment, the GWR and
LISA `run_analysis` leave the temporary working directory removed on every
outcome (their `finally` block runs `shutil.rmtree` on success, non-zero
exit, timeout and any raised exception alike), but the MGWR `run_analysis`
contains no cleanup whatsoever: the directory still exists on every return
path, contradicting the claim for the third module. -/
theorem C3_tempdir_cleanup :
    (∀ env : RunEnv, (gwr_run_analysis env).2.tempDirExists = false) ∧
    (∀ env : RunEnv, (lisa_run_analysis env).2.tempDirExists = false) ∧
    (∀ (rp : String) (env : RunEnv),
      (mgwr_run_analysis rp env).2.tempDirExists = true) :=
  ⟨fun _ => rfl, fun _ => rfl, fun _ _ => rfl⟩

/-! ## Claim C4 -/

theorem C4_counterexample :
    (gwr_run_analysis c4env).1.1 =
      some ⟨"/tmp/gwr_job" ++ "/" ++ "output.shp", "GWR_Results", "ogr"⟩ ∧
    dependsOnDir ⟨"/tmp/gwr_job" ++ "/" ++ "output.shp", "GWR_Results", "ogr"⟩
      c4env.tempDir ∧
    (gwr_run_analysis c4env).2.tempDirExists = false :=
  ⟨rfl, ⟨"output.shp", rfl⟩, rfl⟩

/-- C4 (amended).  The result returned by a successful `run_analysis` is a
`QgsVectorLayer` still backed by the file `output.shp` inside the temporary
working directory: it is not detached from that file, and for the GWR and
LISA modules the directory is deleted before `run_analysis` returns, so the
returned result retains a dependency on a file under the deleted
directory. -/
theorem C4_result_still_file_backed (d out err : String) :
    ((gwr_run_analysis ⟨d, .ok, .completed ⟨0, out, err⟩, true⟩).1.1 =
        some ⟨osJoin d "output.shp", "GWR_Results", "ogr"⟩ ∧
      dependsOnDir ⟨osJoin d "output.shp", "GWR_Results", "ogr"⟩ d ∧
      (gwr_run_analysis
          ⟨d, .ok, .completed ⟨0, out, err⟩, true⟩).2.tempDirExists = false) ∧
    ((lisa_run_analysis ⟨d, .ok, .completed ⟨0, out, err⟩, true⟩).1.1 =
        some ⟨osJoin d "output.shp", "LISA_Results", "ogr"⟩ ∧
      dependsOnDir ⟨osJoin d "output.shp", "LISA_Results", "ogr"⟩ d ∧
      (lisa_run_analysis
          ⟨d, .ok, .completed ⟨0, out, err⟩, true⟩).2.tempDirExists = false) :=
  ⟨⟨rfl, ⟨"output.shp", rfl⟩, rfl⟩, ⟨rfl, ⟨"output.shp", rfl⟩, rfl⟩⟩

/-! ## Claim C5 -/

theorem rErrorMsg_head (r : ProcOutput) :
    (rErrorMsg r).data.head? = some 'E' := by
  rw [rErrorMsg, String.data_append, String.data_append, String.data_append]
  rw [show ("Erreur R :\n" : String).data =
    'E' :: ("rreur R :\n" : String).data from rfl]
  simp

/-- C5 (confirmed).  `run_analysis` classifies the engine outcome: exit code
0 with a loadable output yields a success whose message is the captured
stdout; a non-zero exit yields `(None, msg)` where `msg` combines the
captured stderr and stdout; a timeout yields the distinct per-module timeout
message, which differs from every non-zero-exit failure message. -/
theorem C5_outcome_classification :
    (∀ (d out err : String) (lv : Bool) (rc : Int), rc ≠ 0 →
      (gwr_run_analysis ⟨d, .ok, .completed ⟨rc, out, err⟩, lv⟩).1 =
          (none, rErrorMsg ⟨rc, out, err⟩) ∧
      (lisa_run_analysis ⟨d, .ok, .completed ⟨rc, out, err⟩, lv⟩).1 =
          (none, rErrorMsg ⟨rc, out, err⟩)) ∧
    (∀ (d out err : String),
      ((gwr_run_analysis ⟨d, .ok, .completed ⟨0, out, err⟩, true⟩).1.2 = out ∧
        (gwr_run_analysis ⟨d, .ok, .completed ⟨0, out, err⟩, true⟩).1.1 ≠
          none) ∧
      ((lisa_run_analysis ⟨d, .ok, .completed ⟨0, out, err⟩, true⟩).1.2 =
          out ∧
        (lisa_run_analysis ⟨d, .ok, .completed ⟨0, out, err⟩, true⟩).1.1 ≠
          none)) ∧
    (∀ (d : String) (lv : Bool),
      (gwr_run_analysis ⟨d, .ok, .timedOut, lv⟩).1 = (none, gwrTimeoutMsg) ∧
      (lisa_run_analysis ⟨d, .ok, .timedOut, lv⟩).1 =
        (none, lisaTimeoutMsg)) ∧
    (∀ r : ProcOutput,
      gwrTimeoutMsg ≠ rErrorMsg r ∧ lisaTimeoutMsg ≠ rErrorMsg r) := by
  refine ⟨?_, ?_, ?_, ?_⟩
  · intro d out err lv rc hrc
    constructor <;>
      simp [gwr_run_analysis, lisa_run_analysis, analysisBody, if_pos hrc]
  · intro d out err
    constructor <;> constructor <;>
      simp [gwr_run_analysis, lisa_run_analysis, analysisBody]
  · intro d lv
    constructor <;> rfl
  · intro r
    constructor <;> intro h <;>
    · have h2 := congrArg (fun s => s.data.head?) h
      simp only at h2
      rw [rErrorMsg_head] at h2
      exact absurd h2 (by decide)

theorem C5_outcome_witness :
    ((2 : Int) ≠ 0) ∧
    (gwr_run_analysis
        ⟨"/tmp/j", .ok, .completed ⟨2, "out", "boom"⟩, true⟩).1 =
      (none, rErrorMsg ⟨2, "out", "boom"⟩) ∧
    (lisa_run_analysis
        ⟨"/tmp/j", .ok, .completed ⟨2, "out", "boom"⟩, true⟩).1 =
      (none, rErrorMsg ⟨2, "out", "boom"⟩) :=
  ⟨by decide,
    (C5_outcome_classification.1 "/tmp/j" "out" "boom" true 2 (by decide)).1,
    (C5_outcome_classification.1 "/tmp/j" "out" "boom" true 2 (by decide)).2⟩

/-! ## Claim C9 -/

theorem analysisBody_none_iff (nm tm : String) (env : RunEnv) :
    (analysisBody nm tm env).1 = none ↔ ¬ runSuccess env := by
  obtain ⟨d, ex, ro, lv⟩ := env
  cases ex with
  | failed m => simp [analysisBody, runSuccess]
  | ok =>
    cases ro with
    | timedOut => simp [analysisBody, runSuccess]
    | raised m => simp [analysisBody, runSuccess]
    | completed r =>
      by_cases hrc : r.returncode = 0
      · cases lv
        · simp [analysisBody, runSuccess, hrc]
        · simp [analysisBody, runSuccess, hrc]
      · simp [analysisBody, runSuccess, hrc]

/-- C9 (confirmed).  Every outcome of `run_analysis` — in each of the three
modules — is returned as a pair whose first component is `None` exactly when
the run was not successful, and any exception raised inside the pipeline
body is converted into a result-free return value with the exception message by the
catch-all handler rather than propagated. -/
theorem C9_no_exception_none_iff_failure :
    (∀ env : RunEnv,
      ((gwr_run_analysis env).1.1 = none ↔ ¬ runSuccess env) ∧
      ((lisa_run_analysis env).1.1 = none ↔ ¬ runSuccess env) ∧
      ∀ rp : String,
        (mgwr_run_analysis rp env).1.1 = none ↔ ¬ runSuccess env) ∧
    (∀ (d m : String) (lv : Bool),
      (gwr_run_analysis ⟨d, .ok, .raised m, lv⟩).1 = (none, excMsg m) ∧
      (lisa_run_analysis ⟨d, .ok, .raised m, lv⟩).1 = (none, excMsg m) ∧
      ∀ rp : String,
        (mgwr_run_analysis rp ⟨d, .ok, .raised m, lv⟩).1 =
          (none, excMsg m)) := by
  constructor
  · intro env
    exact ⟨analysisBody_none_iff _ _ env, analysisBody_none_iff _ _ env,
      fun _ => analysisBody_none_iff _ _ env⟩
  · intro d m lv
    exact ⟨rfl, rfl, fun _ => rfl⟩

/-! ## Claim C10 -/

/-- C10 (confirmed).  For every `kernel_type` outside the five known kernel
names, the `kernel_names.get(kernel_type, "gaussian")` lookup of the GWR and
MGWR `run_analysis` silently falls back to `"gaussian"`. -/
theorem C10_unknown_kernel_fallback (k : String)
    (h : k ∉ ["gaussian", "bisquare", "tricube", "exponential", "boxcar"]) :
    gwr_kernel_name k = "gaussian" ∧ mgwr_kernel_name k = "gaussian" := by
  simp only [List.mem_cons, List.not_mem_nil, or_false, not_or] at h
  obtain ⟨h1, h2, h3, h4, h5⟩ := h
  have b1 : (k == "gaussian") = false := beq_eq_false_iff_ne.mpr h1
  have b2 : (k == "bisquare") = false := beq_eq_false_iff_ne.mpr h2
  have b3 : (k == "tricube") = false := beq_eq_false_iff_ne.mpr h3
  have b4 : (k == "exponential") = false := beq_eq_false_iff_ne.mpr h4
  have b5 : (k == "boxcar") = false := beq_eq_false_iff_ne.mpr h5
  have hl : kernel_names.lookup k = none := by
    simp [kernel_names, List.lookup, b1, b2, b3, b4, b5]
  constructor <;> simp [gwr_kernel_name, mgwr_kernel_name, hl]

theorem C10_unknown_kernel_witness :
    ("epanechnikov" ∉
      ["gaussian", "bisquare", "tricube", "exponential", "boxcar"]) ∧
    gwr_kernel_name "epanechnikov" = "gaussian" ∧
    mgwr_kernel_name "epanechnikov" = "gaussian" :=
  ⟨by decide,
    (C10_unknown_kernel_fallback "epanechnikov" (by decide)).1,
    (C10_unknown_kernel_fallback "epanechnikov" (by decide)).2⟩

/-! ## Claim C8 -/

/-- C8 (confirmed).  The configuration written by `save_r_path` holds
exactly one section with exactly one key (the engine executable path), a
`save_r_path(p)` followed by `load_r_path` returns exactly `p`, and
`load_r_path` returns `None` when the configuration file does not exist. -/
theorem C8_config_round_trip :
    (∀ p : String, save_r_path p = [("R", [("path", p)])]) ∧
    (∀ p : String, load_r_path (some (save_r_path p)) = some p) ∧
    load_r_path none = none :=
  ⟨fun _ => rfl, fun _ => rfl, rfl⟩

/-! ## Claim C6 -/

theorem renameField_spec (fm : List (PyStr × PyStr)) (f : QgsField) :
    (renameField fm f).meta = f.meta ∧
    (renameField fm f).name = (fm.lookup f.name).getD f.name := by
  cases h : fm.lookup f.name <;> simp [renameField, h]

theorem mem_keptFeatures {l : List QgsFeature} {addOk : Nat → Bool}
    {x : QgsFeature}
    (hx : x ∈ l.enum.filterMap
      (fun p => if addOk p.1 then some p.2 else none)) :
    x ∈ l := by
  obtain ⟨p, hp, hpx⟩ := List.mem_filterMap.mp hx
  split at hpx
  · cases hpx
    have h2 : p.2 ∈ l.enum.map Prod.snd := List.mem_map_of_mem Prod.snd hp
    rwa [List.enum_map_snd] at h2
  · cases hpx

theorem C6_counterexample :
    export_layer_with_field_mapping c6layer [] ⟨none, fun _ => false⟩ =
      ((true, none), some ⟨[⟨"value".toList, 7⟩], []⟩) := rfl

/-- C6 (amended).  `export_layer_with_field_mapping` returns a failure
carrying the error text of the writer when the target schema cannot be created;
but a feature that cannot be appended is NOT detected — the boolean returned
by `addFeature` is ignored and the function still returns success with no
error text, with the failed features missing from the written dataset.  When
schema creation succeeds, the written schema renames each field to its
mapped short name while preserving the other field properties and the
field order, and every successfully appended feature preserves the source
source geometry and the attribute values in field order. -/
theorem C6_export_behaviour :
    (∀ (layer : QgsVectorLayerData) (fm : List (PyStr × PyStr))
        (addOk : Nat → Bool) (e : String),
      export_layer_with_field_mapping layer fm ⟨some e, addOk⟩ =
        ((false, some ("Erreur lors de la création du shapefile: " ++ e)),
          none)) ∧
    (∀ (layer : QgsVectorLayerData) (fm : List (PyStr × PyStr))
        (addOk : Nat → Bool),
      ∃ ds : WrittenDataset,
        export_layer_with_field_mapping layer fm ⟨none, addOk⟩ =
          ((true, none), some ds) ∧
        List.Forall₂
          (fun f g => g.meta = f.meta ∧
            g.name = (fm.lookup f.name).getD f.name)
          layer.fields ds.fields ∧
        ∀ ft ∈ ds.features, ∃ src ∈ layer.features,
          ft.geometry = src.geometry ∧
          ft.attrs = (ds.fields.zip layer.fields).map
            (fun p => (p.1.name, src.attribute p.2.name))) := by
  refine ⟨fun layer fm addOk e => rfl, fun layer fm addOk => ?_⟩
  refine ⟨⟨layer.fields.map (renameField fm),
    ((layer.features.map
        (buildFeature layer (layer.fields.map (renameField fm)))).enum.filterMap
      (fun p => if addOk p.1 then some p.2 else none))⟩, ?_, ?_, ?_⟩
  · rfl
  · rw [List.forall₂_map_right_iff, List.forall₂_same]
    intro f _
    exact renameField_spec fm f
  · intro ft hft
    have hft2 := mem_keptFeatures hft
    obtain ⟨src, hsrc, hb⟩ := List.mem_map.mp hft2
    exact ⟨src, hsrc, by rw [← hb]; exact ⟨rfl, rfl⟩⟩

theorem C6_export_witness :
    export_layer_with_field_mapping c6layer [] ⟨some "disk full", fun _ => true⟩ =
      ((false,
        some ("Erreur lors de la création du shapefile: " ++ "disk full")),
        none) :=
  C6_export_behaviour.1 c6layer [] (fun _ => true) "disk full"
